import Mathlib

/-!
Verification of the DayRun focus-session launcher (`dayrun.py`).

The development shallowly embeds the parts of the source relevant to the
frozen claims:

* `parse_duration` (source lines 90-110), together with a model of the
  CPython primitives it calls: `str.strip`, `str.lower`, `str.isdigit`,
  `float(...)` and `int(...)`.  The float model parses to an exact
  rational (sign, digits, optional fractional part, optional exponent)
  and truncates toward zero, which coincides with CPython on every input
  whose value is exactly representable; `inf`/`nan` inputs are modelled
  as a parse failure, which yields the same ultimate behaviour in
  `parse_duration` because `int(inf)`/`int(nan)` raise and the raise is
  caught by the surrounding `except` in every branch.  Characters are
  modelled over ASCII (the CLI's documented input alphabet); numeric
  literals with underscores are not modelled.
* The side-effect traces of the `start` command (lines 406-577), the
  detached `_monitor` command (lines 630-661), and the `status`/`stop`
  commands (lines 580-609), as explicit event lists.  An exception
  raised inside the monitor's `try` body is modelled by truncating the
  body's event list at an arbitrary point; the `finally` block's events
  always follow, exactly as in the source.
-/

namespace DayRun

/-! ### Python string primitives (ASCII model) -/

/-- ASCII whitespace recognised by `str.strip()` / `float()`. -/
def isPySpace (c : Char) : Bool :=
  c.toNat = 32 || c.toNat = 9 || c.toNat = 10 || c.toNat = 13 ||
  c.toNat = 11 || c.toNat = 12

/-- `str.lower()` on one character (ASCII range). -/
def pyToLower (c : Char) : Char :=
  if 65 ≤ c.toNat ∧ c.toNat ≤ 90 then Char.ofNat (c.toNat + 32) else c

/-- `str.strip()`: drop whitespace from both ends. -/
def stripL (l : List Char) : List Char :=
  ((l.dropWhile isPySpace).reverse.dropWhile isPySpace).reverse

/-- `str.lower()` over a character list. -/
def lowerL (l : List Char) : List Char := l.map pyToLower

/-- The normalisation `s.strip().lower()` performed at the top of
`parse_duration` (source line 92). -/
def normalizeL (l : List Char) : List Char := lowerL (stripL l)

/-- String-level version of `normalizeL`. -/
def pyNormalize (s : String) : String := String.mk (normalizeL s.toList)

/-! ### Model of `float(...)` and `int(...)` -/

def isDigitCh (c : Char) : Bool := 48 ≤ c.toNat && c.toNat ≤ 57

/-- Value of a (possibly empty) ASCII digit run. -/
def digitsVal (l : List Char) : Nat :=
  l.foldl (fun a c => a * 10 + (c.toNat - 48)) 0

/-- Consume one optional leading sign; return whether it was a minus. -/
def parseSign : List Char → Bool × List Char
  | '-' :: r => (true, r)
  | '+' :: r => (false, r)
  | l => (false, l)

/-- Exact value of a parsed float literal: `num / den`, with `den` a
positive power of ten by construction. -/
structure PyFloat where
  num : Int
  den : Nat
deriving DecidableEq, Repr

/-- Parse `digits [. digits]` / `. digits` / `digits .` into a pair of
numerator and number of fractional digits; fail on anything else. -/
def parseMantissa (l : List Char) : Option (Nat × Nat) :=
  let ip := l.takeWhile isDigitCh
  let rest := l.dropWhile isDigitCh
  match rest with
  | [] => if ip.isEmpty then none else some (digitsVal ip, 0)
  | '.' :: fp =>
      if fp.all isDigitCh && !(ip.isEmpty && fp.isEmpty) then
        some (digitsVal ip * 10 ^ fp.length + digitsVal fp, fp.length)
      else none
  | _ => none

/-- Parse a signed decimal exponent (the part after `e`). -/
def parseExp (l : List Char) : Option Int :=
  let p := parseSign l
  if !p.2.isEmpty && p.2.all isDigitCh then
    some (if p.1 then -(digitsVal p.2 : Int) else (digitsVal p.2 : Int))
  else none

/-- Model of CPython `float(str)` restricted to finite ASCII decimal
literals, returning the exact rational value. -/
def pyFloatL (l : List Char) : Option PyFloat :=
  let l0 := stripL l
  let sg := parseSign l0
  let mant := sg.2.takeWhile (fun c => c != 'e')
  let rest := sg.2.dropWhile (fun c => c != 'e')
  match parseMantissa mant with
  | none => none
  | some nf =>
    let sgn : Int := if sg.1 then -1 else 1
    let scaled : Option (Nat × Nat) :=
      match rest with
      | [] => some (nf.1, 10 ^ nf.2)
      | _ :: es =>
        match parseExp es with
        | none => none
        | some e =>
          let d : Int := e - (nf.2 : Int)
          if 0 ≤ d then some (nf.1 * 10 ^ d.toNat, 1)
          else some (nf.1, 10 ^ (-d).toNat)
    scaled.map (fun p => { num := sgn * (p.1 : Int), den := p.2 })

/-- `int(x)`: truncation toward zero. -/
def ratTrunc (x : PyFloat) : Int := Int.tdiv x.num (x.den : Int)

/-- `int(x * k)` for a nonnegative integer factor `k`, exactly. -/
def truncTimes (x : PyFloat) (k : Nat) : Int :=
  Int.tdiv (x.num * (k : Int)) (x.den : Int)

/-! ### `parse_duration` (source lines 90-110) -/

/-- Result type of the parser: the seconds, or the `InvalidDuration`
failure (`click.BadParameter`) carrying the offending — already
normalised, because line 92 rebinds `s` — string. -/
inductive DurResult
  | ok (seconds : Int)
  | invalidDuration (offending : String)
deriving DecidableEq, Repr

/-- The four parse branches of `parse_duration`, applied to the
normalised character list.  Each branch that fails internally falls
through to the next, exactly as the `try/except: pass` chain does. -/
def parseDurationCore (l : List Char) : Option Int :=
  (if l.getLast? = some 'h' then
     (pyFloatL l.dropLast).map (fun q => truncTimes q 3600)
   else none) <|>
  (if l.getLast? = some 'm' then
     (pyFloatL l.dropLast).map (fun q => truncTimes q 60)
   else none) <|>
  (if !l.isEmpty && l.all isDigitCh then
     some ((digitsVal l : Int) * 60)
   else none) <|>
  ((pyFloatL l).map ratTrunc)

/-- `parse_duration` (source lines 90-110). -/
def parse_duration (s : String) : DurResult :=
  match parseDurationCore (normalizeL s.toList) with
  | some n => DurResult.ok n
  | none => DurResult.invalidDuration (pyNormalize s)

/-! ### Side-effect traces of `start`, `_monitor`, `status`, `stop` -/

/-- Observable side effects of the CLI and monitor processes, in
program order. -/
inductive Ev
  | dndOn
  | dndOff
  | openApp (item : String)
  | tmuxCreate
  | echoTmuxFail
  | bgCmd (c : String)
  | openMusic (m : String)
  | notifyStart
  | notifyEnd
  | saveEntry (hasEnd : Bool)
  | writeHandoff
  | spawnMonitor
  | writePid
  | echoSpawnFail
  | readHandoff
  | sleepDur
  | deleteHandoff
  | clearMarker
  | sigTerm (pid : Nat)
  | echoStopOk (pid : Nat)
  | echoStopFail (pid : Nat)
deriving DecidableEq, Repr

/-- The resolved run plan of one `start` invocation (template merge and
duration parsing, lines 411-453, already done). `tmuxUse` is the source
condition `tmux and tmux_panes`; `tmuxCreated` is the result of
`create_tmux_session`. -/
structure Plan where
  dndMode : Bool
  apps : List String
  cmds : List String
  tmuxUse : Bool
  tmuxCreated : Bool
  music : Option String
  notify : Bool
  detach : Bool
  log : Bool
deriving DecidableEq, Repr

/-- Begin-phase effects of `start` (source lines 457-497): DND on,
open apps, tmux or background commands, music, start notification. -/
def beginTrace (p : Plan) : List Ev :=
  (if p.dndMode then [Ev.dndOn] else []) ++
  p.apps.map Ev.openApp ++
  (if p.tmuxUse then
    (if p.tmuxCreated then [Ev.tmuxCreate]
     else Ev.echoTmuxFail :: p.cmds.map Ev.bgCmd)
   else p.cmds.map Ev.bgCmd) ++
  (match p.music with
   | some m => [Ev.openMusic m]
   | none => []) ++
  (if p.notify then [Ev.notifyStart] else [])

/-- Finish-phase effects of the foreground path (source lines 566-576):
end notification, DND off, history append carrying `end_ts`. -/
def fgFinishTrace (p : Plan) : List Ev :=
  (if p.notify then [Ev.notifyEnd] else []) ++
  (if p.dndMode then [Ev.dndOff] else []) ++
  (if p.log then [Ev.saveEntry true] else [])

/-- Full trace of one `start` invocation (source lines 406-577).
`spawnOk` is whether the detached spawn block (lines 517-534) ran
without an exception; on failure the source falls through to the
foreground countdown.  `interrupted` is whether `KeyboardInterrupt`
arrived during the countdown (lines 558-563): the handler disables DND
when it was requested and returns, appending nothing. -/
def startTrace (p : Plan) (spawnOk interrupted : Bool) : List Ev :=
  beginTrace p ++
  (if p.detach then
    (if spawnOk then
      Ev.writeHandoff :: Ev.spawnMonitor :: Ev.writePid ::
        (if p.log then [Ev.saveEntry false] else [])
     else
      Ev.writeHandoff :: Ev.echoSpawnFail ::
        (if interrupted then (if p.dndMode then [Ev.dndOff] else [])
         else fgFinishTrace p))
   else
    (if interrupted then (if p.dndMode then [Ev.dndOff] else [])
     else fgFinishTrace p))

/-- The part of the deserialised handoff entry the monitor's behaviour
depends on: `entry.get("dnd")`. -/
structure MEntry where
  dnd : Bool
deriving DecidableEq, Repr

/-- `entry = {}` (line 643): every `get` is falsy. -/
def emptyEntry : MEntry := { dnd := false }

/-- Body of the monitor's `try` block (lines 647-654): sleep, end
notification, DND off when the entry requested DND, history append. -/
def monitorFinish (e : MEntry) : List Ev :=
  Ev.sleepDur :: Ev.notifyEnd ::
    ((if e.dnd then [Ev.dndOff] else []) ++ [Ev.saveEntry true])

/-- Full trace of the `_monitor` command (lines 630-661).  `handoff` is
`none` when the handoff file is missing or unparsable.  `abortAfter`
models an exception escaping the `try` body after that many of its
events; the `finally` block (lines 655-661) always runs: delete the
handoff file, then clear the pid marker. -/
def monitorTrace (handoff : Option MEntry) (abortAfter : Option Nat) : List Ev :=
  let e := handoff.getD emptyEntry
  Ev.readHandoff :: Ev.writePid ::
    ((match abortAfter with
      | none => monitorFinish e
      | some k => (monitorFinish e).take k) ++
     [Ev.deleteHandoff, Ev.clearMarker])

/-- Message printed by `status` (lines 580-593). -/
inductive StatusMsg
  | noSession
  | running (pid : Nat)
  | stale
deriving DecidableEq, Repr

/-- The `status` command: `marker` is the content of the pid file
(`none` when absent), `alive` is whether `os.kill(pid, 0)` succeeds.
Returns the marker state after the command and the report.  The source
guard `if not pid` also treats a stored `0` as "no session"; the
program only ever stores OS-assigned pids, which are positive. -/
def status (marker : Option Nat) (alive : Nat → Bool) : Option Nat × StatusMsg :=
  match marker with
  | none => (none, StatusMsg.noSession)
  | some pid =>
    if pid = 0 then (some 0, StatusMsg.noSession)
    else if alive pid then (some pid, StatusMsg.running pid)
    else (none, StatusMsg.stale)

/-- The `stop` command (lines 596-609): `killOk` is whether
`os.kill(pid, SIGTERM)` succeeded.  Returns the event trace and the
marker state after the command. -/
def stop (marker : Option Nat) (killOk : Bool) : List Ev × Option Nat :=
  match marker with
  | none => ([], none)
  | some pid =>
    if pid = 0 then ([], some 0)
    else if killOk then
      ([Ev.sigTerm pid, Ev.echoStopOk pid, Ev.clearMarker], none)
    else
      ([Ev.sigTerm pid, Ev.echoStopFail pid, Ev.clearMarker], none)

/-- History appends recorded in a trace. -/
def isSave : Ev → Bool
  | Ev.saveEntry _ => true
  | _ => false

/-- Number of history records appended along a trace. -/
def savesIn (t : List Ev) : Nat := (t.filter isSave).length

/-- Some occurrence of `a` strictly precedes some occurrence of `b`. -/
def eventBefore (a b : Ev) (t : List Ev) : Prop :=
  ∃ i j : Fin t.length, (i : Nat) < (j : Nat) ∧ t.get i = a ∧ t.get j = b

instance (a b : Ev) (t : List Ev) : Decidable (eventBefore a b t) := by
  unfold eventBefore; infer_instance

/-- Begin-phase events named by the ordering claim. -/
def isBeginKey : Ev → Bool
  | Ev.dndOn => true
  | Ev.openApp _ => true
  | Ev.notifyStart => true
  | _ => false

/-- Finish-phase events named by the ordering claim. -/
def isFinishKey : Ev → Bool
  | Ev.notifyEnd => true
  | Ev.dndOff => true
  | Ev.saveEntry _ => true
  | _ => false

/-! ### Normalisation lemmas -/

lemma toNat_ofNat_of_valid {n : Nat} (h : n < 55296) : (Char.ofNat n).toNat = n := by
  rw [Char.ofNat, dif_pos (Or.inl h)]
  rfl

lemma pyToLower_pyToLower (c : Char) : pyToLower (pyToLower c) = pyToLower c := by
  unfold pyToLower
  by_cases h : 65 ≤ c.toNat ∧ c.toNat ≤ 90
  · rw [if_pos h]
    have hv : (Char.ofNat (c.toNat + 32)).toNat = c.toNat + 32 :=
      toNat_ofNat_of_valid (by omega)
    rw [if_neg (by rw [hv]; omega)]
  · rw [if_neg h, if_neg h]

lemma isPySpace_pyToLower (c : Char) : isPySpace (pyToLower c) = isPySpace c := by
  by_cases h : 65 ≤ c.toNat ∧ c.toNat ≤ 90
  · have h1 : (pyToLower c).toNat = c.toNat + 32 := by
      unfold pyToLower
      rw [if_pos h]
      exact toNat_ofNat_of_valid (by omega)
    have hLf : isPySpace (pyToLower c) = false := by
      simp only [isPySpace, h1, Bool.or_eq_false_iff, decide_eq_false_iff_not]
      omega
    have hRf : isPySpace c = false := by
      simp only [isPySpace, Bool.or_eq_false_iff, decide_eq_false_iff_not]
      omega
    rw [hLf, hRf]
  · unfold pyToLower
    rw [if_neg h]

lemma dropWhile_self_idem (p : α → Bool) (l : List α) :
    (l.dropWhile p).dropWhile p = l.dropWhile p := by
  induction l with
  | nil => rfl
  | cons a l ih =>
    by_cases h : p a
    · simp [List.dropWhile_cons, h, ih]
    · simp [List.dropWhile_cons, h]

lemma lowerL_idem (l : List Char) : lowerL (lowerL l) = lowerL l := by
  induction l with
  | nil => rfl
  | cons a l ih =>
    simp only [lowerL, List.map_cons] at ih ⊢
    rw [pyToLower_pyToLower]
    exact congrArg _ ih

lemma dropWhile_lowerL (l : List Char) :
    (lowerL l).dropWhile isPySpace = lowerL (l.dropWhile isPySpace) := by
  induction l with
  | nil => rfl
  | cons a l ih =>
    by_cases h : isPySpace a
    · simp only [lowerL, List.map_cons, List.dropWhile_cons, isPySpace_pyToLower, h,
        if_true] at ih ⊢
      exact ih
    · simp only [lowerL, List.map_cons, List.dropWhile_cons, isPySpace_pyToLower] at ih ⊢
      simp [h]

lemma reverse_lowerL (l : List Char) : (lowerL l).reverse = lowerL l.reverse := by
  simp [lowerL]

lemma stripL_lowerL (l : List Char) : stripL (lowerL l) = lowerL (stripL l) := by
  unfold stripL
  rw [dropWhile_lowerL, reverse_lowerL, dropWhile_lowerL, reverse_lowerL]

lemma dropWhile_head_false {p : α → Bool} {l : List α} (h : l.dropWhile p = l)
    (a : α) (l' : List α) (hl : l = a :: l') : p a = false := by
  subst hl
  by_cases hpa : p a
  · rw [List.dropWhile_cons_of_pos hpa] at h
    have hlen := (List.dropWhile_suffix (l := l') (p := p)).length_le
    rw [h] at hlen
    simp at hlen
  · simpa using hpa

lemma stripL_idem (l : List Char) : stripL (stripL l) = stripL l := by
  obtain ⟨v, hv⟩ :=
    List.dropWhile_suffix (p := isPySpace) (l := (l.dropWhile isPySpace).reverse)
  set u := ((l.dropWhile isPySpace).reverse).dropWhile isPySpace with hu
  have ht : stripL l = u.reverse := rfl
  have hLl : l.dropWhile isPySpace = u.reverse ++ v.reverse := by
    have h2 := congrArg List.reverse hv
    simpa [List.reverse_append] using h2.symm
  have h1 : (u.reverse).dropWhile isPySpace = u.reverse := by
    cases hur : u.reverse with
    | nil => rfl
    | cons a r =>
      have hfix : (l.dropWhile isPySpace).dropWhile isPySpace = l.dropWhile isPySpace :=
        dropWhile_self_idem _ _
      have ha : isPySpace a = false := by
        apply dropWhile_head_false hfix a (r ++ v.reverse)
        rw [hLl, hur]
        rfl
      rw [List.dropWhile_cons_of_neg (by simp [ha])]
  rw [ht]
  show stripL u.reverse = u.reverse
  unfold stripL
  rw [h1, List.reverse_reverse, hu, dropWhile_self_idem]

lemma normalizeL_idem (l : List Char) : normalizeL (normalizeL l) = normalizeL l := by
  unfold normalizeL
  rw [stripL_lowerL, stripL_idem, lowerL_idem]

/-! ### Trace lemmas -/

lemma filterBegin_openApps (xs : List String) :
    (xs.map Ev.openApp).filter isBeginKey = xs.map Ev.openApp := by
  induction xs with
  | nil => rfl
  | cons a xs ih => simp [List.filter_cons, isBeginKey, ih]

lemma filterFin_openApps (xs : List String) :
    (xs.map Ev.openApp).filter isFinishKey = [] := by
  induction xs with
  | nil => rfl
  | cons a xs ih => simp [List.filter_cons, isFinishKey, ih]

lemma filterBegin_bgCmds (xs : List String) :
    (xs.map Ev.bgCmd).filter isBeginKey = [] := by
  induction xs with
  | nil => rfl
  | cons a xs ih => simp [List.filter_cons, isBeginKey, ih]

lemma filterFin_bgCmds (xs : List String) :
    (xs.map Ev.bgCmd).filter isFinishKey = [] := by
  induction xs with
  | nil => rfl
  | cons a xs ih => simp [List.filter_cons, isFinishKey, ih]

lemma beginTrace_filterBegin (p : Plan) :
    (beginTrace p).filter isBeginKey =
      (if p.dndMode then [Ev.dndOn] else []) ++ p.apps.map Ev.openApp ++
      (if p.notify then [Ev.notifyStart] else []) := by
  obtain ⟨d, apps, cmds, tu, tc, mu, nt, de, lg⟩ := p
  unfold beginTrace
  cases d <;> cases nt <;> cases tu <;> cases tc <;> cases mu <;>
    simp [List.filter_append, List.filter_cons, filterBegin_openApps, filterBegin_bgCmds,
      isBeginKey]

lemma beginTrace_filterFin (p : Plan) : (beginTrace p).filter isFinishKey = [] := by
  obtain ⟨d, apps, cmds, tu, tc, mu, nt, de, lg⟩ := p
  unfold beginTrace
  cases d <;> cases nt <;> cases tu <;> cases tc <;> cases mu <;>
    simp [List.filter_append, List.filter_cons, filterFin_openApps, filterFin_bgCmds,
      isFinishKey]

lemma fgFinishTrace_filterFin (p : Plan) :
    (fgFinishTrace p).filter isFinishKey = fgFinishTrace p := by
  obtain ⟨d, apps, cmds, tu, tc, mu, nt, de, lg⟩ := p
  unfold fgFinishTrace
  cases nt <;> cases d <;> cases lg <;>
    simp [List.filter_append, List.filter_cons, isFinishKey]

lemma filter_nil_of_imp {q r : Ev → Bool} {l : List Ev} (h : l.filter r = [])
    (himp : ∀ x, q x = true → r x = true) : l.filter q = [] := by
  rw [List.filter_eq_nil_iff] at h ⊢
  intro a ha hqa
  exact h a ha (himp a hqa)

lemma isSave_imp_isFinishKey : ∀ x, isSave x = true → isFinishKey x = true := by
  intro x
  cases x <;> simp [isSave, isFinishKey]

lemma not_mem_of_filter_nil {q : Ev → Bool} {l : List Ev} (h : l.filter q = [])
    {x : Ev} (hx : q x = true) : x ∉ l := by
  intro hm
  have hmem : x ∈ l.filter q := List.mem_filter.mpr ⟨hm, hx⟩
  rw [h] at hmem
  exact absurd hmem (List.not_mem_nil x)

lemma mem_monitorFinish (e : MEntry) (x : Ev) (hx : x ∈ monitorFinish e) :
    x = Ev.sleepDur ∨ x = Ev.notifyEnd ∨ x = Ev.dndOff ∨ x = Ev.saveEntry true := by
  obtain ⟨d⟩ := e
  cases d <;> simp [monitorFinish] at hx <;> tauto

lemma eventBefore_cons₂ (a b : Ev) (l : List Ev) : eventBefore a b (a :: b :: l) := by
  refine ⟨⟨0, ?_⟩, ⟨1, ?_⟩, ?_, rfl, rfl⟩ <;> simp

lemma eventBefore_of_indices {a b : Ev} {t : List Ev} (i j : Nat) (hij : i < j)
    (hj : j < t.length) (ha : t.get ⟨i, Nat.lt_trans hij hj⟩ = a)
    (hb : t.get ⟨j, hj⟩ = b) : eventBefore a b t :=
  ⟨⟨i, Nat.lt_trans hij hj⟩, ⟨j, hj⟩, hij, ha, hb⟩

lemma monitorTrace_filterFin (h : Option MEntry) :
    (monitorTrace h none).filter isFinishKey =
      Ev.notifyEnd :: ((if (h.getD emptyEntry).dnd then [Ev.dndOff] else []) ++
        [Ev.saveEntry true]) := by
  rcases h with _ | e
  · decide
  · obtain ⟨d⟩ := e
    cases d <;> decide

/-! ### Claim theorems -/

/-- A concrete detached, logging-enabled run plan (the default flag
values of `start --detach`). -/
def detachPlan : Plan :=
  { dndMode := true, apps := [], cmds := [], tmuxUse := false, tmuxCreated := false,
    music := none, notify := true, detach := true, log := true }

/-- Claim C1 (refuted, code bug): a detached session with logging
enabled does NOT produce exactly one history record.  Evaluating the
embedded code on a detached, logged run whose monitor completes: the
CLI path appends one record at spawn time (without `end_ts`, line 533)
and the monitor appends a second, distinct record at completion (with
`end_ts`, line 654) — two appends in total, and the spawn-time record
never receives `end_ts`. -/
theorem detached_session_appends_two_records :
    savesIn (startTrace detachPlan true false) +
      savesIn (monitorTrace (some { dnd := true }) none) = 2 ∧
    (startTrace detachPlan true false).filter isSave = [Ev.saveEntry false] ∧
    (monitorTrace (some { dnd := true }) none).filter isSave = [Ev.saveEntry true] := by
  decide

/-- Claim C2 (counterexample): on a monitor run with a readable handoff
file, no occurrence of the pid write precedes the handoff read — the
source (lines 639-646) reads the handoff first, so the claimed
"pid write, then read" order is false. -/
theorem monitor_pid_write_not_before_handoff_read :
    ¬ eventBefore Ev.writePid Ev.readHandoff
        (monitorTrace (some { dnd := true }) none) := by
  decide

/-- Claim C2 (amended): when the monitor starts it first reads and
deserialises its handoff file and then writes its own pid to the
tracker marker, in that order; a missing or unparsable handoff file is
treated as an empty record and the monitor proceeds identically. -/
theorem monitor_reads_handoff_then_writes_pid (handoff : Option MEntry)
    (abort : Option Nat) :
    eventBefore Ev.readHandoff Ev.writePid (monitorTrace handoff abort) ∧
    monitorTrace none abort = monitorTrace (some emptyEntry) abort := by
  constructor
  · exact eventBefore_cons₂ _ _ _
  · rfl

/-- Claim C3: whatever the handoff content and whether or not the
`try` body is cut short by an exception, the monitor's trace ends with
the handoff-file deletion followed by the marker clear, and neither
cleanup event occurs earlier. -/
theorem monitor_cleanup_always_ordered (handoff : Option MEntry)
    (abort : Option Nat) :
    ∃ pre, monitorTrace handoff abort = pre ++ [Ev.deleteHandoff, Ev.clearMarker] ∧
      Ev.deleteHandoff ∉ pre ∧ Ev.clearMarker ∉ pre := by
  cases abort with
  | none =>
    refine ⟨Ev.readHandoff :: Ev.writePid :: monitorFinish (handoff.getD emptyEntry),
      rfl, ?_, ?_⟩ <;>
    · intro hm
      simp only [List.mem_cons] at hm
      rcases hm with h | h | h
      · exact absurd h (by decide)
      · exact absurd h (by decide)
      · rcases mem_monitorFinish _ _ h with h | h | h | h <;> exact absurd h (by decide)
  | some k =>
    refine ⟨Ev.readHandoff :: Ev.writePid ::
      (monitorFinish (handoff.getD emptyEntry)).take k, rfl, ?_, ?_⟩ <;>
    · intro hm
      simp only [List.mem_cons] at hm
      rcases hm with h | h | h
      · exact absurd h (by decide)
      · exact absurd h (by decide)
      · rcases mem_monitorFinish _ _ (List.mem_of_mem_take h) with h | h | h | h <;>
          exact absurd h (by decide)

/-- Claim C4: for any present marker holding an (OS-assigned, hence
positive) pid, `stop` attempts signal delivery to that pid and then
clears the marker, in both the delivery-succeeded and the
delivery-failed branch, so no marker survives a stop attempt. -/
theorem stop_signals_then_always_clears (pid : Nat) (killOk : Bool) (hp : 0 < pid) :
    (stop (some pid) killOk).2 = none ∧
    eventBefore (Ev.sigTerm pid) Ev.clearMarker (stop (some pid) killOk).1 := by
  have hz : ¬ pid = 0 := by omega
  cases killOk
  · have h1 : stop (some pid) false =
        ([Ev.sigTerm pid, Ev.echoStopFail pid, Ev.clearMarker], none) := by
      simp [stop, hz]
    rw [h1]
    exact ⟨rfl, eventBefore_of_indices 0 2 (by decide) (by simp) rfl rfl⟩
  · have h1 : stop (some pid) true =
        ([Ev.sigTerm pid, Ev.echoStopOk pid, Ev.clearMarker], none) := by
      simp [stop, hz]
    rw [h1]
    exact ⟨rfl, eventBefore_of_indices 0 2 (by decide) (by simp) rfl rfl⟩

/-- Claim C4 witness: the theorem applied at pid 1 with failed signal
delivery. -/
theorem stop_signals_then_always_clears_witness :
    (stop (some 1) false).2 = none ∧
    eventBefore (Ev.sigTerm 1) Ev.clearMarker (stop (some 1) false).1 :=
  stop_signals_then_always_clears 1 false (by decide)

/-- Claim C5: `status` reports "no session" on an absent marker; with a
marker for a live pid it reports running and keeps the marker; with a
marker for a dead pid it reports stale and clears the marker. -/
theorem status_semantics (alive : Nat → Bool) (pid : Nat) (hp : 0 < pid) :
    status none alive = (none, StatusMsg.noSession) ∧
    (alive pid = true → status (some pid) alive = (some pid, StatusMsg.running pid)) ∧
    (alive pid = false → status (some pid) alive = (none, StatusMsg.stale)) := by
  have hz : ¬ pid = 0 := by omega
  refine ⟨rfl, ?_, ?_⟩ <;> intro ha <;> simp [status, hz, ha]

/-- Claim C5 witness: the theorem applied at pid 1 with an
always-alive probe. -/
theorem status_semantics_witness :
    status none (fun _ => true) = (none, StatusMsg.noSession) ∧
    ((fun _ => true : Nat → Bool) 1 = true →
      status (some 1) (fun _ => true) = (some 1, StatusMsg.running 1)) ∧
    ((fun _ => true : Nat → Bool) 1 = false →
      status (some 1) (fun _ => true) = (none, StatusMsg.stale)) :=
  status_semantics (fun _ => true) 1 (by decide)

/-- Claim C6: within the begin phase, DND-enable precedes every
app-opening which precedes the start notification; within the finish
phase — both the foreground completion path and the detached monitor —
the end notification precedes DND-disable which precedes the history
append.  Each conjunct projects the trace onto the named event kinds
and exhibits them in the claimed order. -/
theorem begin_and_finish_effect_order (p : Plan) (handoff : Option MEntry) :
    (beginTrace p).filter isBeginKey =
      (if p.dndMode then [Ev.dndOn] else []) ++ p.apps.map Ev.openApp ++
      (if p.notify then [Ev.notifyStart] else []) ∧
    (startTrace { p with detach := false } true false).filter isFinishKey =
      (if p.notify then [Ev.notifyEnd] else []) ++
      (if p.dndMode then [Ev.dndOff] else []) ++
      (if p.log then [Ev.saveEntry true] else []) ∧
    (monitorTrace handoff none).filter isFinishKey =
      Ev.notifyEnd :: ((if (handoff.getD emptyEntry).dnd then [Ev.dndOff] else []) ++
        [Ev.saveEntry true]) := by
  refine ⟨beginTrace_filterBegin p, ?_, monitorTrace_filterFin handoff⟩
  obtain ⟨d, apps, cmds, tu, tc, mu, nt, de, lg⟩ := p
  show (beginTrace _ ++ _).filter isFinishKey = _
  rw [List.filter_append, beginTrace_filterFin, List.nil_append]
  show (fgFinishTrace _).filter isFinishKey = _
  rw [fgFinishTrace_filterFin]
  rfl

/-- Claim C7: when the foreground countdown is interrupted, the
resulting trace appends nothing to history, sends no end notification,
and contains a DND-disable exactly when DND had been enabled for the
session. -/
theorem interrupted_no_log_dnd_restored (p : Plan) (spawnOk : Bool) :
    savesIn (startTrace { p with detach := false } spawnOk true) = 0 ∧
    Ev.notifyEnd ∉ startTrace { p with detach := false } spawnOk true ∧
    (Ev.dndOff ∈ startTrace { p with detach := false } spawnOk true ↔
      p.dndMode = true) := by
  have hb := beginTrace_filterFin { p with detach := false }
  have htr : startTrace { p with detach := false } spawnOk true =
      beginTrace { p with detach := false } ++
        (if p.dndMode then [Ev.dndOff] else []) := rfl
  rw [htr]
  refine ⟨?_, ?_, ?_⟩
  · simp only [savesIn]
    rw [List.filter_append, filter_nil_of_imp hb isSave_imp_isFinishKey,
      List.nil_append]
    cases hpd : p.dndMode <;> simp [List.filter_cons, isSave]
  · intro hm
    rcases List.mem_append.mp hm with h | h
    · exact not_mem_of_filter_nil hb (show isFinishKey Ev.notifyEnd = true from rfl) h
    · cases hpd : p.dndMode <;> rw [hpd] at h <;> simp at h
  · constructor
    · intro hm
      rcases List.mem_append.mp hm with h | h
      · exact absurd h
          (not_mem_of_filter_nil hb (show isFinishKey Ev.dndOff = true from rfl))
      · by_cases hpd : p.dndMode = true
        · exact hpd
        · rw [if_neg hpd] at h
          simp at h
    · intro hd
      rw [hd]
      simp

/-- Claim C8 (counterexample): the duration parser does not always
return a positive number of seconds or fail — on the input string
composed of the single digit zero it returns zero seconds. -/
theorem parse_duration_zero_refutes_positivity :
    ¬ ∀ s : String,
        (∃ n : Int, parse_duration s = DurResult.ok n ∧ 0 < n) ∨
        (∃ e : String, parse_duration s = DurResult.invalidDuration e) := by
  intro h
  have h0 : parse_duration ("0") = DurResult.ok 0 := by decide
  rcases h ("0") with ⟨n, hn, hpos⟩ | ⟨e, he⟩
  · rw [h0] at hn
    cases hn
    exact absurd hpos (by decide)
  · rw [h0] at he
    simp at he

/-- Claim C8 (amended): for every input string the duration parser
either returns an integer number of seconds or fails with
`InvalidDuration` carrying the normalised input; the returned integer
is not guaranteed positive (zero and negative values are possible). -/
theorem parse_duration_total_int_or_invalid (s : String) :
    (∃ n : Int, parse_duration s = DurResult.ok n) ∨
      parse_duration s = DurResult.invalidDuration (pyNormalize s) := by
  unfold parse_duration
  cases h : parseDurationCore (normalizeL s.toList) with
  | none => right; rfl
  | some n => left; exact ⟨n, rfl⟩

/-- Claim C9 (counterexample): parsing the all-digit string 45 yields
2700 seconds (digits are minutes, rule 3 of the parser), not 45. -/
theorem parse_duration_45_is_2700_not_45 :
    parse_duration ("45") = DurResult.ok 2700 ∧
    parse_duration ("45") ≠ DurResult.ok 45 := by
  constructor
  · decide
  · decide

/-- Claim C9 (amended): the example inputs parse to 5400, 3600, 1800
and 2700 seconds respectively, and the non-numeric input fails with
`InvalidDuration` rather than defaulting. -/
theorem parse_duration_examples :
    parse_duration ("90m") = DurResult.ok 5400 ∧
    parse_duration ("1h") = DurResult.ok 3600 ∧
    parse_duration ("30") = DurResult.ok 1800 ∧
    parse_duration ("45") = DurResult.ok 2700 ∧
    parse_duration ("abc") = DurResult.invalidDuration ("abc") := by
  refine ⟨?_, ?_, ?_, ?_, ?_⟩ <;> decide

/-- Claim C10: parsing any string equals parsing its normalised form
(surrounding whitespace stripped, letters lowercased), and the
uppercase examples parse to their lowercase meanings. -/
theorem parse_duration_normalize_invariant :
    (∀ s : String, parse_duration s = parse_duration (pyNormalize s)) ∧
    parse_duration ("  90M ") = DurResult.ok 5400 ∧
    parse_duration ("1H") = DurResult.ok 3600 := by
  refine ⟨?_, by decide, by decide⟩
  intro s
  have hpn : pyNormalize (pyNormalize s) = pyNormalize s :=
    congrArg String.mk (normalizeL_idem s.toList)
  unfold parse_duration
  have hcore : normalizeL (pyNormalize s).toList = normalizeL s.toList := by
    show normalizeL (normalizeL s.toList) = normalizeL s.toList
    exact normalizeL_idem s.toList
  rw [hcore, hpn]

end DayRun
